import Mathlib

/-!
Object-store accessor (`cmd/web/storage.go`).

A shallow embedding of the storage facade of the web application: `UploadBytes`,
`UploadFile`, `DownloadBytes`, `ServeFile` and `FindObject`.

Conventions of the embedding.

* A Go `string` is a Lean `String`.  The only string operations of the source are
  equality, `strings.Split(_, ".")` and the `%s` verb; the separator `.` is one
  byte in UTF-8 and never occurs inside a multi-byte sequence, so splitting by
  code point and splitting by byte agree.
* A Go `error` is `Option Error`: `none` is `nil`.  A pair `(T, error)` returned by
  the SDK is an `Except Error T`; a pair returned by the source is kept as a pair.
* A Go pointer that the source dereferences is an `Option`; dereferencing `none`
  is a run-time panic, recorded in `Outcome.panic`.
* The SDK calls are effects on a `World`: the remote service (any state type `σ`
  with any behaviour), the log of requests issued, the local files and the
  messages formatted by `log.Printf`.
-/

namespace Storage

/-- Non-nil Go `error` value. -/
structure Error where
  msg : String
  deriving DecidableEq, Repr

/-- Go `[]byte`. -/
abbrev Bytes := List UInt8

/-- How a Go call ends: it returns a value or the goroutine panics. -/
inductive Outcome (α : Type) where
  | ret (v : α)
  | panic (msg : String)
  deriving DecidableEq, Repr

/-! ## SDK request and response shapes (`service/s3`) -/

/-- Fields of `s3.PutObjectInput` the source fills in; `Body` is the content of the
`bytes.NewReader` handed over. -/
structure PutObjectInput where
  Body : Bytes
  Bucket : String
  Key : String
  deriving DecidableEq, Repr

/-- Fields of `s3.GetObjectInput` the source fills in. -/
structure GetObjectInput where
  Bucket : String
  Key : String
  deriving DecidableEq, Repr

/-- Fields of `s3.ListObjectsV2Input` the source fills in. -/
structure ListObjectsV2Input where
  Bucket : String
  deriving DecidableEq, Repr

/-- An `io.ReadCloser` response body: the bytes it yields and, when reading breaks
off, the error that ends it (`none`: clean end of stream). -/
structure ReadCloser where
  content : Bytes
  failure : Option Error
  deriving DecidableEq, Repr

/-- Field of `s3.GetObjectOutput` the source reads. -/
structure GetObjectOutput where
  Body : ReadCloser
  deriving DecidableEq, Repr

/-- Field of `s3.Object` the source reads; `Key` has Go type `*string`. -/
structure Object where
  Key : Option String
  deriving DecidableEq, Repr

/-- Field of `s3.ListObjectsV2Output` the source reads; `Contents` has Go type
`[]*s3.Object`. -/
structure ListObjectsV2Output where
  Contents : List (Option Object)
  deriving DecidableEq, Repr

/-- Behaviour of the remote object-storage service behind the SDK client, over an
arbitrary service state `σ`.  `PutObject` keeps only the error of the SDK result,
the output value being discarded by the source. -/
structure Service (σ : Type) where
  PutObject : PutObjectInput → σ → Option Error × σ
  GetObject : GetObjectInput → σ → Except Error GetObjectOutput × σ
  ListObjectsV2 : ListObjectsV2Input → σ → Except Error ListObjectsV2Output × σ

/-- A request sent through the SDK client. -/
inductive Call where
  | put (input : PutObjectInput)
  | get (input : GetObjectInput)
  | list (input : ListObjectsV2Input)
  deriving DecidableEq, Repr

/-- Everything outside the accessor that its operations touch. -/
structure World (σ : Type) where
  /-- state of the remote service -/
  remote : σ
  /-- requests issued so far, oldest first -/
  calls : List Call
  /-- result of `ioutil.ReadFile` for each path -/
  files : String → Except Error Bytes
  /-- messages formatted by `log.Printf`, oldest first -/
  logged : List String

/-- The part of `App` that `storage.go` uses: the `Storage` session from which
`s3.New` builds the client.  `s3.New` sends nothing, so the session is identified
with the service it reaches. -/
structure App (σ : Type) where
  Storage : Service σ

/-- Client method `storageConnection.PutObject(input)`. -/
def PutObject {σ : Type} (storageConnection : Service σ) (input : PutObjectInput)
    (w : World σ) : Option Error × World σ :=
  let r := storageConnection.PutObject input w.remote
  (r.1, { w with remote := r.2, calls := w.calls ++ [Call.put input] })

/-- Client method `storageConnection.GetObject(input)`. -/
def GetObject {σ : Type} (storageConnection : Service σ) (input : GetObjectInput)
    (w : World σ) : Except Error GetObjectOutput × World σ :=
  let r := storageConnection.GetObject input w.remote
  (r.1, { w with remote := r.2, calls := w.calls ++ [Call.get input] })

/-- Client method `storageConnection.ListObjectsV2(input)`. -/
def ListObjectsV2 {σ : Type} (storageConnection : Service σ) (input : ListObjectsV2Input)
    (w : World σ) : Except Error ListObjectsV2Output × World σ :=
  let r := storageConnection.ListObjectsV2 input w.remote
  (r.1, { w with remote := r.2, calls := w.calls ++ [Call.list input] })

/-- Library call `ioutil.ReadAll(body)`: the bytes read and the error, if any, that
stopped the read. -/
def ReadAll (body : ReadCloser) : Bytes × Option Error :=
  (body.content, body.failure)

/-! ## `strings.Split` -/

/-- Segments of a character sequence between occurrences of `sep`. -/
def splitChars (sep : Char) : List Char → List (List Char)
  | [] => [[]]
  | c :: cs =>
    if c = sep then [] :: splitChars sep cs
    else
      match splitChars sep cs with
      | [] => [[c]]
      | seg :: rest => (c :: seg) :: rest

/-- Library call `strings.Split(s, sep)` for a one-character separator: all
substrings of `s` between separators; `[s]` when `s` has no separator. -/
def Split (s : String) (sep : Char) : List String :=
  (splitChars sep s.data).map String.mk

/-! ## The accessor -/

/-- UploadBytes take bytes and put into a bucket object. -/
def UploadBytes {σ : Type} (app : App σ) (bucket key : String) (data : Bytes)
    (w : World σ) : Option Error × World σ :=
  -- Connection to s3 server
  let storageConnection := app.Storage
  -- Upload a new object
  match PutObject storageConnection { Body := data, Bucket := bucket, Key := key } w with
  | (some err, w1) => (some err, w1)
  -- Return no error
  | (none, w1) => (none, w1)

/-- UploadFile take local file and put into a bucket object. -/
def UploadFile {σ : Type} (app : App σ) (bucket key filename : String)
    (w : World σ) : Option Error × World σ :=
  -- Connection to s3 server
  let storageConnection := app.Storage
  -- Read file
  match w.files filename with
  | .error err => (some err, w)
  | .ok data =>
    -- Upload a new object
    match PutObject storageConnection { Body := data, Bucket := bucket, Key := key } w with
    | (some err, w1) => (some err, w1)
    -- Return no error
    | (none, w1) => (none, w1)

/-- DownloadBytes get an object from a bucket and save the bytes. -/
def DownloadBytes {σ : Type} (app : App σ) (bucket key : String)
    (w : World σ) : (Bytes × Option Error) × World σ :=
  -- Empty bytes for object
  let output : Bytes := []
  -- Connection to s3 server
  let storageConnection := app.Storage
  -- Get object
  match GetObject storageConnection { Bucket := bucket, Key := key } w with
  | (.error err, w1) => ((output, some err), w1)
  | (.ok result, w1) =>
    -- Read object bytes
    match ReadAll result.Body with
    | (output, some err) => ((output, some err), w1)
    -- Return the bytes with no error
    | (output, none) => ((output, none), w1)

/-- What `ServeFile` does with the `http.ResponseWriter` it is given, in order. -/
inductive Action where
  /-- the call `w.Header().Set(name, value)` -/
  | headerSet (name value : String)
  /-- the call `w.Write(data)` -/
  | write (data : Bytes)
  /-- Modelled from the spec: the call `app.ServerError(w, err)`; the method is
  declared outside `storage.go`, the spec names it the host application's generic
  error-response mechanism, an external collaborator, so the call is recorded
  with its argument and not interpreted -/
  | serverError (err : Error)
  deriving DecidableEq, Repr

/-- An `http.ResponseWriter`, as the sequence of calls made on it, oldest first. -/
abbrev ResponseWriter := List Action

/-- Library call `fmt.Sprintf("attachment; filename=\"%s\"", name)`: the `%s` verb
copies a string operand unchanged. -/
def dispositionValue (name : String) : String :=
  "attachment; filename=\"" ++ name ++ "\""

/-- ServeFile takes bucket object and sends to user. -/
def ServeFile {σ : Type} (app : App σ) (w : ResponseWriter) (bucket key name : String)
    (world : World σ) : ResponseWriter × World σ :=
  -- Download object bytes
  match DownloadBytes app bucket key world with
  | ((_, some err), world1) => (w ++ [Action.serverError err], world1)
  | ((data, none), world1) =>
    -- Set header for file download
    let w1 := w ++ [Action.headerSet "Content-Disposition" (dispositionValue name)]
    -- Write headers and bytes to user
    (w1 ++ [Action.write data], world1)

/-- Body of `for _, item := range resp.Contents` in `FindObject`, with the final
`return mismatch, nil` once the range is exhausted. -/
def findLoop {σ : Type} (key mismatch : String) :
    List (Option Object) → World σ → Outcome (String × Option Error) × World σ
  | [], w => (.ret (mismatch, none), w)
  | item :: rest, w =>
    match item with
    | none => (.panic "invalid memory address or nil pointer dereference", w)
    | some obj =>
      match obj.Key with
      | none => (.panic "invalid memory address or nil pointer dereference", w)
      | some itemKey =>
        match Split itemKey '.' with
        | [] => (.panic "index out of range [0] with length 0", w)
        | id :: _ =>
          if id = key then
            (.ret (itemKey, none), { w with logged := w.logged ++ ["Found key " ++ id] })
          else findLoop key mismatch rest w

/-- FindObject get an object given the name. -/
def FindObject {σ : Type} (app : App σ) (bucket key : String)
    (w : World σ) : Outcome (String × Option Error) × World σ :=
  let mismatch : String := ""
  -- Connection to s3 server
  let storageConnection := app.Storage
  match ListObjectsV2 storageConnection { Bucket := bucket } w with
  | (.error err, w1) => (.ret (mismatch, some err), w1)
  | (.ok resp, w1) => findLoop key mismatch resp.Contents w1

/-! ## Vocabulary of the properties -/

/-- Segment of a key before its first `.`; the whole key when it has no `.`. -/
def segment (s : String) : String :=
  String.mk (s.data.takeWhile (fun c => decide (c ≠ '.')))

/-- Listing response whose entries carry the given keys, in order. -/
def listingOf (keys : List String) : ListObjectsV2Output :=
  { Contents := keys.map (fun k => some { Key := some k }) }

/-- Character class `qdtext` of RFC 7230 section 3.2.6, the characters that may
stand unescaped inside a quoted-string: HTAB, SP and every visible or non-ASCII
character other than the double quote (34) and the backslash (92). -/
def qdtext (c : Char) : Bool :=
  decide (c.toNat = 9 ∨ (32 ≤ c.toNat ∧ c.toNat ≠ 34 ∧ c.toNat ≠ 92 ∧ c.toNat ≠ 127))

/-- Characters that may follow the backslash of a `quoted-pair` (RFC 7230 section
3.2.6): HTAB, SP and every visible or non-ASCII character. -/
def escapable (c : Char) : Bool :=
  decide (c.toNat = 9 ∨ (32 ≤ c.toNat ∧ c.toNat ≠ 127))

/-- Reader of an RFC 7230 `quoted-string`, started after the opening quote: the
text up to the first unescaped double quote, each `quoted-pair` standing for the
character after its backslash, together with what follows the closing quote;
`none` when the quote is never closed or a character is not allowed. -/
def readQuoted : List Char → Option (List Char × List Char)
  | [] => none
  | c :: rest =>
    if c.toNat = 34 then some ([], rest)
    else if c.toNat = 92 then
      match rest with
      | [] => none
      | d :: rest1 =>
        if escapable d then (readQuoted rest1).map (fun r => (d :: r.1, r.2)) else none
    else if qdtext c then (readQuoted rest).map (fun r => (c :: r.1, r.2))
    else none

/-- Filename that a recipient reads from a `Content-Disposition` value made of the
disposition type `attachment` and the single parameter `filename=<quoted-string>`
(RFC 6266 section 4.1, optional blanks after the `;`); `none` when the value is not
of that form, for instance when text follows the closing quote. -/
def dispositionFilename (value : String) : Option String :=
  let dtype := "attachment;".data
  if value.data.take dtype.length = dtype then
    let parm :=
      (value.data.drop dtype.length).dropWhile (fun c => decide (c = ' ' ∨ c.toNat = 9))
    let pname := "filename=".data
    if parm.take pname.length = pname then
      match parm.drop pname.length with
      | [] => none
      | q :: body =>
        if q.toNat = 34 then
          match readQuoted body with
          | some (name, []) => some (String.mk name)
          | _ => none
        else none
    else none
  else none

/-- Bytes passed to `Write` by a sequence of calls, concatenated in order. -/
def bodyWritten : ResponseWriter → Bytes
  | [] => []
  | Action.write data :: rest => data ++ bodyWritten rest
  | _ :: rest => bodyWritten rest

/-! ## A reference object store: a map from (bucket, key) to bytes -/

/-- State of the reference store: the buckets that exist and the stored objects,
keyed by bucket and key, in listing order. -/
structure Store where
  buckets : List String
  objects : List ((String × String) × Bytes)
  deriving DecidableEq, Repr

/-- Content stored under `k`, if any. -/
def lookup (k : String × String) : List ((String × String) × Bytes) → Option Bytes
  | [] => none
  | (k1, v) :: rest => if k1 = k then some v else lookup k rest

/-- Store `v` under `k`, overwriting the content already there. -/
def upsert (k : String × String) (v : Bytes) :
    List ((String × String) × Bytes) → List ((String × String) × Bytes)
  | [] => [(k, v)]
  | (k1, v1) :: rest => if k1 = k then (k, v) :: rest else (k1, v1) :: upsert k v rest

/-- Keys of the objects held in `bucket`, in listing order. -/
def keysIn (bucket : String) (objects : List ((String × String) × Bytes)) : List String :=
  (objects.filter (fun e => decide (e.1.1 = bucket))).map (fun e => e.1.2)

/-- The reference store as a service: put overwrites, get returns what was put,
list enumerates the bucket; a request naming a bucket that does not exist, or
a get of a key that is not stored, is rejected. -/
def mapService : Service Store where
  PutObject input s :=
    if input.Bucket ∈ s.buckets then
      (none, { s with objects := upsert (input.Bucket, input.Key) input.Body s.objects })
    else (some { msg := "NoSuchBucket" }, s)
  GetObject input s :=
    match lookup (input.Bucket, input.Key) s.objects with
    | some data => (.ok { Body := { content := data, failure := none } }, s)
    | none => (.error { msg := "NoSuchKey" }, s)
  ListObjectsV2 input s :=
    if input.Bucket ∈ s.buckets then (.ok (listingOf (keysIn input.Bucket s.objects)), s)
    else (.error { msg := "NoSuchBucket" }, s)

/-- The application wired to the reference store. -/
def mapApp : App Store := { Storage := mapService }

/-- One operation of the accessor, as a caller invokes it. -/
inductive Op where
  | uploadBytes (bucket key : String) (data : Bytes)
  | uploadFile (bucket key filename : String)
  | downloadBytes (bucket key : String)
  | serveFile (w : ResponseWriter) (bucket key name : String)
  | findObject (bucket key : String)
  deriving DecidableEq, Repr

/-- The operation is a write addressed to object `key` of `bucket`. -/
def Op.writesTo (bucket key : String) : Op → Prop
  | .uploadBytes b k _ => b = bucket ∧ k = key
  | .uploadFile b k _ => b = bucket ∧ k = key
  | .downloadBytes _ _ => False
  | .serveFile _ _ _ _ => False
  | .findObject _ _ => False

instance Op.decidableWritesTo (bucket key : String) (op : Op) :
    Decidable (op.writesTo bucket key) := by
  cases op <;> simp only [Op.writesTo] <;> infer_instance

/-- World left behind by one operation, its return value dropped. -/
def Op.run {σ : Type} (app : App σ) : Op → World σ → World σ
  | .uploadBytes b k data, w => (UploadBytes app b k data w).2
  | .uploadFile b k filename, w => (UploadFile app b k filename w).2
  | .downloadBytes b k, w => (DownloadBytes app b k w).2
  | .serveFile rw b k name, w => (ServeFile app rw b k name w).2
  | .findObject b k, w => (FindObject app b k w).2

/-- World left behind by a sequence of operations run one after the other. -/
def runAll {σ : Type} (app : App σ) : List Op → World σ → World σ
  | [], w => w
  | op :: ops, w => runAll app ops (op.run app w)

/-- A local disk holding the single file `/tmp/invoice.pdf`. -/
def demoFiles (path : String) : Except Error Bytes :=
  if path = "/tmp/invoice.pdf" then .ok [37, 80, 68, 70]
  else .error { msg := "open " ++ path ++ ": no such file or directory" }

/-- A world over the reference store: bucket `docs` holds `invoice.pdf` and
`report.csv`, bucket `scans` holds `invoice123.pdf`, bucket `odd` holds an object
whose key is the empty string, bucket `empty` holds nothing; nothing requested or
logged yet. -/
def demoWorld : World Store where
  remote :=
    { buckets := ["docs", "scans", "empty", "odd"]
      objects := [(("docs", "invoice.pdf"), [37, 80, 68, 70]),
                  (("scans", "invoice123.pdf"), [1, 2]),
                  (("docs", "report.csv"), [97, 44, 98]),
                  (("odd", ""), [0])] }
  calls := []
  files := demoFiles
  logged := []

/-! ## Facts about `strings.Split` -/

theorem splitChars_ne_nil (sep : Char) (l : List Char) : splitChars sep l ≠ [] := by
  induction l with
  | nil => simp [splitChars]
  | cons c cs ih =>
    unfold splitChars
    split
    · simp
    · split <;> simp

/-- Joining the segments with the separator gives the sequence back. -/
theorem splitChars_intercalate (sep : Char) (l : List Char) :
    List.intercalate [sep] (splitChars sep l) = l := by
  induction l with
  | nil => simp [splitChars, List.intercalate]
  | cons c cs ih =>
    unfold splitChars
    split
    · next h =>
      cases hs : splitChars sep cs with
      | nil => exact absurd hs (splitChars_ne_nil sep cs)
      | cons seg rest =>
        rw [hs] at ih
        simpa [List.intercalate, h] using ih
    · split
      · next hs => exact absurd hs (splitChars_ne_nil sep cs)
      · next seg rest hs =>
        rw [hs] at ih
        cases rest with
        | nil => simpa [List.intercalate, List.intersperse] using ih
        | cons r rs =>
          simp only [List.intercalate, List.intersperse, List.flatten, List.cons_append] at ih ⊢
          rw [ih]

/-- No segment contains the separator. -/
theorem splitChars_no_sep (sep : Char) (l : List Char) :
    ∀ seg ∈ splitChars sep l, sep ∉ seg := by
  induction l with
  | nil => simp [splitChars]
  | cons c cs ih =>
    unfold splitChars
    split
    · intro seg hseg
      rcases List.mem_cons.1 hseg with h | h
      · simp [h]
      · exact ih seg h
    · next hc =>
      split
      · next hs => exact absurd hs (splitChars_ne_nil sep cs)
      · next seg rest hs =>
        rw [hs] at ih
        intro x hx
        rcases List.mem_cons.1 hx with h | h
        · subst h
          have := ih seg (List.mem_cons_self _ _)
          simp only [List.mem_cons, not_or]
          exact ⟨fun e => hc e.symm, this⟩
        · exact ih x (List.mem_cons_of_mem _ h)

/-- The first segment is the longest initial run free of the separator. -/
theorem splitChars_head (sep : Char) (l : List Char) :
    ∃ rest, splitChars sep l = l.takeWhile (fun c => decide (c ≠ sep)) :: rest := by
  induction l with
  | nil => exact ⟨[], by simp [splitChars]⟩
  | cons c cs ih =>
    obtain ⟨rest, hrest⟩ := ih
    unfold splitChars
    split
    · next h => exact ⟨splitChars sep cs, by simp [h]⟩
    · next h => exact ⟨rest, by simp [hrest, h]⟩

/-- Index 0 of `strings.Split(s, ".")` exists and is the segment before the first
`.` of `s`. -/
theorem Split_head (s : String) : ∃ rest, Split s '.' = segment s :: rest := by
  obtain ⟨rest, hrest⟩ := splitChars_head '.' s.data
  exact ⟨rest.map String.mk, by simp [Split, segment, hrest]⟩

theorem segment_no_dot (s : String) : '.' ∉ (segment s).data := by
  intro h
  have := List.mem_takeWhile_imp h
  simp at this

theorem segment_data_append (s : String) : ∃ t, s.data = (segment s).data ++ t :=
  ⟨s.data.dropWhile (fun c => decide (c ≠ '.')), by simp [segment]⟩

theorem segment_empty : segment "" = "" := by decide

/-! ## Facts about `FindObject` -/

theorem FindObject_of_error {σ : Type} (app : App σ) (bucket key : String) (w : World σ)
    (e : Error) (h : (ListObjectsV2 app.Storage { Bucket := bucket } w).1 = .error e) :
    FindObject app bucket key w
      = (.ret ("", some e), (ListObjectsV2 app.Storage { Bucket := bucket } w).2) := by
  unfold FindObject
  dsimp only
  generalize ListObjectsV2 app.Storage { Bucket := bucket } w = r at h ⊢
  obtain ⟨r1, w1⟩ := r
  simp only at h
  subst h
  rfl

theorem FindObject_of_ok {σ : Type} (app : App σ) (bucket key : String) (w : World σ)
    (resp : ListObjectsV2Output)
    (h : (ListObjectsV2 app.Storage { Bucket := bucket } w).1 = .ok resp) :
    FindObject app bucket key w
      = findLoop key "" resp.Contents (ListObjectsV2 app.Storage { Bucket := bucket } w).2 := by
  unfold FindObject
  dsimp only
  generalize ListObjectsV2 app.Storage { Bucket := bucket } w = r at h ⊢
  obtain ⟨r1, w1⟩ := r
  simp only at h
  subst h
  rfl

/-- One turn of the loop on an entry whose key is present. -/
theorem findLoop_cons_key {σ : Type} (key mismatch K : String) (cs : List (Option Object))
    (w : World σ) :
    findLoop key mismatch (some { Key := some K } :: cs) w
      = if segment K = key then
          (.ret (K, none), { w with logged := w.logged ++ ["Found key " ++ segment K] })
        else findLoop key mismatch cs w := by
  obtain ⟨rest, h⟩ := Split_head K
  simp [findLoop, h]

theorem findLoop_no_match {σ : Type} (key mismatch : String) (keys : List String) (w : World σ)
    (hno : ∀ K ∈ keys, segment K ≠ key) :
    findLoop key mismatch (listingOf keys).Contents w = (.ret (mismatch, none), w) := by
  induction keys with
  | nil => simp [listingOf, findLoop]
  | cons K ks ih =>
    have hK : segment K ≠ key := hno K (List.mem_cons_self _ _)
    have := ih (fun x hx => hno x (List.mem_cons_of_mem _ hx))
    simp only [listingOf, List.map_cons] at this ⊢
    rw [findLoop_cons_key, if_neg hK, this]

theorem findLoop_first_match {σ : Type} (key mismatch K : String) (pre post : List String)
    (w : World σ) (hpre : ∀ x ∈ pre, segment x ≠ key) (hK : segment K = key) :
    (findLoop key mismatch (listingOf (pre ++ K :: post)).Contents w).1 = .ret (K, none) := by
  induction pre with
  | nil =>
    simp only [listingOf, List.nil_append, List.map_cons]
    rw [findLoop_cons_key, if_pos hK]
  | cons p ps ih =>
    have hp : segment p ≠ key := hpre p (List.mem_cons_self _ _)
    have := ih (fun x hx => hpre x (List.mem_cons_of_mem _ hx))
    simp only [listingOf, List.cons_append, List.map_cons] at this ⊢
    rw [findLoop_cons_key, if_neg hp, this]

/-- A listing with a match splits at its earliest match. -/
theorem exists_first_match (key : String) (keys : List String)
    (hex : ∃ K ∈ keys, segment K = key) :
    ∃ pre K post, keys = pre ++ K :: post ∧ (∀ x ∈ pre, segment x ≠ key) ∧ segment K = key := by
  induction keys with
  | nil => simp at hex
  | cons a as ih =>
    by_cases ha : segment a = key
    · exact ⟨[], a, as, rfl, by simp, ha⟩
    · obtain ⟨K, hmem, hK⟩ := hex
      rcases List.mem_cons.1 hmem with h | h
      · exact absurd (h ▸ hK) ha
      · obtain ⟨pre, K1, post, hsplit, hpre, hK1⟩ := ih ⟨K, h, hK⟩
        refine ⟨a :: pre, K1, post, by simp [hsplit], ?_, hK1⟩
        intro x hx
        rcases List.mem_cons.1 hx with e | e
        · exact e ▸ ha
        · exact hpre x e

/-- The loop either panics or returns without an error. -/
theorem findLoop_no_error {σ : Type} (key mismatch : String) (cs : List (Option Object))
    (w : World σ) (K : String) (e : Error) :
    (findLoop key mismatch cs w).1 ≠ .ret (K, some e) := by
  induction cs with
  | nil => simp [findLoop]
  | cons item rest ih =>
    unfold findLoop
    split
    · simp
    · split
      · simp
      · split
        · simp
        · split
          · simp
          · exact ih

/-- Result of `FindObject` over a listing of present keys, by cases on a match. -/
theorem FindObject_listing {σ : Type} (app : App σ) (bucket k : String) (w : World σ)
    (keys : List String)
    (hlist : (ListObjectsV2 app.Storage { Bucket := bucket } w).1 = .ok (listingOf keys)) :
    ((∀ x ∈ keys, segment x ≠ k) ∧ (FindObject app bucket k w).1 = .ret ("", none)) ∨
    (∃ pre K post, keys = pre ++ K :: post ∧ (∀ x ∈ pre, segment x ≠ k) ∧ segment K = k ∧
      (FindObject app bucket k w).1 = .ret (K, none)) := by
  rw [FindObject_of_ok app bucket k w _ hlist]
  by_cases hex : ∃ K ∈ keys, segment K = k
  · right
    obtain ⟨pre, K, post, hsplit, hpre, hK⟩ := exists_first_match k keys hex
    refine ⟨pre, K, post, hsplit, hpre, hK, ?_⟩
    rw [hsplit]
    exact findLoop_first_match k "" K pre post _ hpre hK
  · left
    have hno : ∀ x ∈ keys, segment x ≠ k := fun x hx hseg => hex ⟨x, hx, hseg⟩
    exact ⟨hno, by rw [findLoop_no_match k "" keys _ hno]⟩

/-! ## Properties of `FindObject` -/

/-- C1: when the listing call succeeds with keys `keys` and some listed key has its
segment before the first `.` equal to the logical key `k`, `FindObject` returns,
with a nil error, the full key `K` of the earliest such entry: `keys` splits as
`pre ++ K :: post` with no match in `pre` and a match at `K`. -/
theorem FindObject_returns_first_match {σ : Type} (app : App σ) (bucket k : String)
    (w : World σ) (keys : List String)
    (hlist : (ListObjectsV2 app.Storage { Bucket := bucket } w).1 = .ok (listingOf keys))
    (hex : ∃ K ∈ keys, segment K = k) :
    ∃ pre K post, keys = pre ++ K :: post ∧ (∀ x ∈ pre, segment x ≠ k) ∧ segment K = k ∧
      (FindObject app bucket k w).1 = .ret (K, none) := by
  rcases FindObject_listing app bucket k w keys hlist with ⟨hno, _⟩ | h
  · obtain ⟨K, hmem, hK⟩ := hex
    exact absurd hK (hno K hmem)
  · exact h

/-- C1 at the listing `["invoice.pdf", "report.csv"]` of bucket `docs` and logical
key `invoice`: the result is `invoice.pdf`. -/
theorem FindObject_returns_first_match_witness :
    (ListObjectsV2 mapApp.Storage { Bucket := "docs" } demoWorld).1
        = .ok (listingOf ["invoice.pdf", "report.csv"]) ∧
    (∃ K ∈ ["invoice.pdf", "report.csv"], segment K = "invoice") ∧
    (FindObject mapApp "docs" "invoice" demoWorld).1 = .ret ("invoice.pdf", none) ∧
    (∃ pre K post, ["invoice.pdf", "report.csv"] = pre ++ K :: post ∧
      (∀ x ∈ pre, segment x ≠ "invoice") ∧ segment K = "invoice" ∧
      (FindObject mapApp "docs" "invoice" demoWorld).1 = .ret (K, none)) :=
  ⟨rfl, ⟨"invoice.pdf", by decide, by decide⟩, by decide,
    FindObject_returns_first_match mapApp "docs" "invoice" demoWorld
      ["invoice.pdf", "report.csv"] rfl ⟨"invoice.pdf", by decide, by decide⟩⟩

/-- C2: when the listing call succeeds with keys `keys` (possibly none) and no
listed key has its segment before the first `.` equal to the logical key `k`,
`FindObject` returns the empty string and a nil error. -/
theorem FindObject_no_match_is_empty_success {σ : Type} (app : App σ) (bucket k : String)
    (w : World σ) (keys : List String)
    (hlist : (ListObjectsV2 app.Storage { Bucket := bucket } w).1 = .ok (listingOf keys))
    (hno : ∀ K ∈ keys, segment K ≠ k) :
    (FindObject app bucket k w).1 = .ret ("", none) := by
  rw [FindObject_of_ok app bucket k w _ hlist, findLoop_no_match k "" keys _ hno]

/-- C2 at bucket `docs`, whose listing is `invoice.pdf`, `report.csv`, and the logical
key `rep`: the loop compares `invoice` and `report` with `rep`, finds neither equal
and returns the empty string with a nil error. -/
theorem FindObject_no_match_is_empty_success_witness :
    (ListObjectsV2 mapApp.Storage { Bucket := "docs" } demoWorld).1
        = .ok (listingOf ["invoice.pdf", "report.csv"]) ∧
    (∀ K ∈ ["invoice.pdf", "report.csv"], segment K ≠ "rep") ∧
    (FindObject mapApp "docs" "rep" demoWorld).1 = .ret ("", none) :=
  ⟨rfl, by decide,
    FindObject_no_match_is_empty_success mapApp "docs" "rep" demoWorld
      ["invoice.pdf", "report.csv"] rfl (by decide)⟩

/-- C3: when the listing call succeeds with keys `keys`, whatever `FindObject`
returns comes with a nil error and is either a listed key whose segment before
the first `.` equals the logical key `k` exactly, or the empty string of the
no-match case. -/
theorem FindObject_match_is_exact_and_listed {σ : Type} (app : App σ) (bucket k : String)
    (w : World σ) (keys : List String) (K : String) (err : Option Error)
    (hlist : (ListObjectsV2 app.Storage { Bucket := bucket } w).1 = .ok (listingOf keys))
    (hret : (FindObject app bucket k w).1 = .ret (K, err)) :
    err = none ∧ ((K ∈ keys ∧ segment K = k) ∨ (K = "" ∧ ∀ x ∈ keys, segment x ≠ k)) := by
  rcases FindObject_listing app bucket k w keys hlist with ⟨hno, h⟩ | ⟨pre, K1, post, hs, _, hK1, h⟩
  · rw [h] at hret
    cases hret
    exact ⟨rfl, Or.inr ⟨rfl, hno⟩⟩
  · rw [h] at hret
    cases hret
    exact ⟨rfl, Or.inl ⟨by simp [hs], hK1⟩⟩

/-- C3 at bucket `scans`, which holds only `invoice123.pdf`: the logical key
`invoice` is not matched and the result is empty. -/
theorem FindObject_match_is_exact_and_listed_witness :
    (ListObjectsV2 mapApp.Storage { Bucket := "scans" } demoWorld).1
        = .ok (listingOf ["invoice123.pdf"]) ∧
    (FindObject mapApp "scans" "invoice" demoWorld).1 = .ret ("", none) ∧
    ((none : Option Error) = none ∧
      (("" ∈ ["invoice123.pdf"] ∧ segment "" = "invoice") ∨
       ("" = "" ∧ ∀ x ∈ ["invoice123.pdf"], segment x ≠ "invoice"))) :=
  ⟨rfl, by decide,
    FindObject_match_is_exact_and_listed mapApp "scans" "invoice" demoWorld
      ["invoice123.pdf"] "" none rfl (by decide)⟩

/-- C4: `FindObject` returns a non-nil error exactly when the list-objects call
returns an error; it then returns that same error with the empty string; and
when the listing call succeeds it returns no error whatever the response holds,
returning normally on every listing of present keys. -/
theorem FindObject_fails_iff_listing_fails {σ : Type} (app : App σ) (bucket key : String)
    (w : World σ) :
    ((∃ K e, (FindObject app bucket key w).1 = .ret (K, some e)) ↔
      ∃ e, (ListObjectsV2 app.Storage { Bucket := bucket } w).1 = .error e) ∧
    (∀ e, (ListObjectsV2 app.Storage { Bucket := bucket } w).1 = .error e →
      (FindObject app bucket key w).1 = .ret ("", some e)) ∧
    (∀ resp, (ListObjectsV2 app.Storage { Bucket := bucket } w).1 = .ok resp →
      ∀ K e, (FindObject app bucket key w).1 ≠ .ret (K, some e)) ∧
    (∀ keys, (ListObjectsV2 app.Storage { Bucket := bucket } w).1 = .ok (listingOf keys) →
      ∃ K, (FindObject app bucket key w).1 = .ret (K, none)) := by
  have herr : ∀ e, (ListObjectsV2 app.Storage { Bucket := bucket } w).1 = .error e →
      (FindObject app bucket key w).1 = .ret ("", some e) := by
    intro e h
    rw [FindObject_of_error app bucket key w e h]
  have hok : ∀ resp, (ListObjectsV2 app.Storage { Bucket := bucket } w).1 = .ok resp →
      ∀ K e, (FindObject app bucket key w).1 ≠ .ret (K, some e) := by
    intro resp h K e
    rw [FindObject_of_ok app bucket key w resp h]
    exact findLoop_no_error key "" resp.Contents _ K e
  refine ⟨⟨?_, ?_⟩, herr, hok, ?_⟩
  · rintro ⟨K, e, hret⟩
    cases hl : (ListObjectsV2 app.Storage { Bucket := bucket } w).1 with
    | error e1 => exact ⟨e1, rfl⟩
    | ok resp => exact absurd hret (hok resp hl K e)
  · rintro ⟨e, h⟩
    exact ⟨"", e, herr e h⟩
  · intro keys h
    rcases FindObject_listing app bucket key w keys h with ⟨_, h1⟩ | ⟨_, K, _, _, _, _, h1⟩
    · exact ⟨"", h1⟩
    · exact ⟨K, h1⟩

/-- C4 at a bucket that does not exist: the listing error comes back unchanged. -/
theorem FindObject_fails_iff_listing_fails_witness :
    (ListObjectsV2 mapApp.Storage { Bucket := "nope" } demoWorld).1
        = .error { msg := "NoSuchBucket" } ∧
    (FindObject mapApp "nope" "invoice" demoWorld).1
        = .ret ("", some { msg := "NoSuchBucket" }) :=
  ⟨rfl, (FindObject_fails_iff_listing_fails mapApp "nope" "invoice" demoWorld).2.1
    { msg := "NoSuchBucket" } rfl⟩

/-- C9: over a successful listing with keys `keys`, for a non-empty logical key
`k` the result of `FindObject` is the empty string exactly when no listed key has
its segment before the first `.` equal to `k`, and a key returned on a match begins
with `k`; for the empty logical key the equivalence is lost: when the earliest
match is a listed key that is itself empty, the result is the empty string although
a match exists. -/
theorem FindObject_empty_result_iff_no_match {σ : Type} (app : App σ) (bucket : String)
    (w : World σ) (keys : List String)
    (hlist : (ListObjectsV2 app.Storage { Bucket := bucket } w).1 = .ok (listingOf keys)) :
    (∀ k, k ≠ "" →
      ((∃ err, (FindObject app bucket k w).1 = .ret ("", err)) ↔ ∀ K ∈ keys, segment K ≠ k)) ∧
    (∀ k K, (∃ x ∈ keys, segment x = k) → (FindObject app bucket k w).1 = .ret (K, none) →
      ∃ t, K.data = k.data ++ t) ∧
    (∀ pre post, keys = pre ++ "" :: post → (∀ x ∈ pre, segment x ≠ "") →
      (FindObject app bucket "" w).1 = .ret ("", none) ∧ ∃ K ∈ keys, segment K = "") := by
  refine ⟨?_, ?_, ?_⟩
  · intro k hk
    rcases FindObject_listing app bucket k w keys hlist with ⟨hno, h⟩ | ⟨pre, K, post, hs, _, hK, h⟩
    · exact ⟨fun _ => hno, fun _ => ⟨none, h⟩⟩
    · constructor
      · rintro ⟨err, hret⟩
        rw [h] at hret
        cases hret
        exact absurd (segment_empty.symm.trans hK).symm hk
      · intro hno
        exact absurd hK (hno K (by simp [hs]))
  · rintro k K ⟨x, hx, hseg⟩ hret
    rcases FindObject_listing app bucket k w keys hlist with ⟨hno, _⟩ | ⟨_, K1, _, _, _, hK1, h⟩
    · exact absurd hseg (hno x hx)
    · rw [h] at hret
      cases hret
      rw [← hK1]
      exact segment_data_append K
  · intro pre post hs hpre
    refine ⟨?_, "", by simp [hs], segment_empty⟩
    rw [FindObject_of_ok app bucket "" w _ hlist, hs]
    exact findLoop_first_match "" "" "" pre post _ hpre segment_empty

/-- C9 at bucket `odd`, whose only key is empty: looking up `invoice` gives the
empty string (no match), and so does looking up the empty logical key, which
matches. -/
theorem FindObject_empty_result_iff_no_match_witness :
    (ListObjectsV2 mapApp.Storage { Bucket := "odd" } demoWorld).1 = .ok (listingOf [""]) ∧
    ((∃ err, (FindObject mapApp "odd" "invoice" demoWorld).1 = .ret ("", err)) ↔
      ∀ K ∈ [""], segment K ≠ "invoice") ∧
    ((FindObject mapApp "odd" "" demoWorld).1 = .ret ("", none) ∧
      ∃ K ∈ [""], segment K = "") :=
  ⟨rfl,
    (FindObject_empty_result_iff_no_match mapApp "odd" demoWorld [""] rfl).1 "invoice"
      (by decide),
    (FindObject_empty_result_iff_no_match mapApp "odd" demoWorld [""] rfl).2.2 [] [] rfl
      (by decide)⟩

/-- C10: over a successful listing with keys `keys`, a logical key `k` that
contains a `.` matches nothing: `FindObject` returns the empty string and a nil
error, also when `k` is itself a listed key. -/
theorem FindObject_dotted_key_never_matches {σ : Type} (app : App σ) (bucket k : String)
    (w : World σ) (keys : List String)
    (hlist : (ListObjectsV2 app.Storage { Bucket := bucket } w).1 = .ok (listingOf keys))
    (hdot : '.' ∈ k.data) :
    (FindObject app bucket k w).1 = .ret ("", none) := by
  have hno : ∀ K ∈ keys, segment K ≠ k := by
    intro K _ hseg
    exact segment_no_dot K (hseg ▸ hdot)
  rw [FindObject_of_ok app bucket k w _ hlist, findLoop_no_match k "" keys _ hno]

/-- C10 at bucket `docs` and logical key `invoice.pdf`, which is a listed key. -/
theorem FindObject_dotted_key_never_matches_witness :
    (ListObjectsV2 mapApp.Storage { Bucket := "docs" } demoWorld).1
        = .ok (listingOf ["invoice.pdf", "report.csv"]) ∧
    '.' ∈ "invoice.pdf".data ∧ "invoice.pdf" ∈ ["invoice.pdf", "report.csv"] ∧
    (FindObject mapApp "docs" "invoice.pdf" demoWorld).1 = .ret ("", none) :=
  ⟨rfl, by decide, by decide,
    FindObject_dotted_key_never_matches mapApp "docs" "invoice.pdf" demoWorld
      ["invoice.pdf", "report.csv"] rfl (by decide)⟩

/-! ## Facts about the transfer operations -/

/-- The branches of `UploadBytes` hand the client result through unchanged. -/
theorem UploadBytes_eq_PutObject {σ : Type} (app : App σ) (bucket key : String)
    (data : Bytes) (w : World σ) :
    UploadBytes app bucket key data w
      = PutObject app.Storage { Body := data, Bucket := bucket, Key := key } w := by
  unfold UploadBytes
  dsimp only
  generalize PutObject app.Storage { Body := data, Bucket := bucket, Key := key } w = r
  obtain ⟨_ | err, w1⟩ := r <;> rfl

theorem UploadFile_of_read_ok {σ : Type} (app : App σ) (bucket key filename : String)
    (w : World σ) (data : Bytes) (h : w.files filename = .ok data) :
    UploadFile app bucket key filename w
      = PutObject app.Storage { Body := data, Bucket := bucket, Key := key } w := by
  unfold UploadFile
  dsimp only
  rw [h]
  dsimp only
  generalize PutObject app.Storage { Body := data, Bucket := bucket, Key := key } w = r
  obtain ⟨_ | err, w1⟩ := r <;> rfl

theorem UploadFile_of_read_error {σ : Type} (app : App σ) (bucket key filename : String)
    (w : World σ) (e : Error) (h : w.files filename = .error e) :
    UploadFile app bucket key filename w = (some e, w) := by
  unfold UploadFile
  dsimp only
  rw [h]

/-- The world after `DownloadBytes` is the world after its one get-object request. -/
theorem DownloadBytes_world {σ : Type} (app : App σ) (bucket key : String) (w : World σ) :
    (DownloadBytes app bucket key w).2
      = (GetObject app.Storage { Bucket := bucket, Key := key } w).2 := by
  unfold DownloadBytes
  dsimp only
  generalize GetObject app.Storage { Bucket := bucket, Key := key } w = r
  obtain ⟨_ | result, w1⟩ := r
  · rfl
  · dsimp only [ReadAll]
    cases result.Body.failure <;> rfl

theorem ServeFile_world {σ : Type} (app : App σ) (rw : ResponseWriter)
    (bucket key name : String) (w : World σ) :
    (ServeFile app rw bucket key name w).2 = (DownloadBytes app bucket key w).2 := by
  unfold ServeFile
  generalize DownloadBytes app bucket key w = r
  obtain ⟨⟨out, _ | err⟩, w1⟩ := r <;> rfl

theorem ServeFile_of_ok {σ : Type} (app : App σ) (rw : ResponseWriter)
    (bucket key name : String) (w : World σ) (data : Bytes)
    (h : (DownloadBytes app bucket key w).1 = (data, none)) :
    (ServeFile app rw bucket key name w).1
      = rw ++ [Action.headerSet "Content-Disposition" (dispositionValue name),
               Action.write data] := by
  unfold ServeFile
  generalize DownloadBytes app bucket key w = r at h ⊢
  obtain ⟨⟨out, _ | err⟩, w1⟩ := r
  · simp only [Prod.mk.injEq, and_true] at h
    subst h
    simp
  · simp at h

theorem ServeFile_of_error {σ : Type} (app : App σ) (rw : ResponseWriter)
    (bucket key name : String) (w : World σ) (out : Bytes) (err : Error)
    (h : (DownloadBytes app bucket key w).1 = (out, some err)) :
    (ServeFile app rw bucket key name w).1 = rw ++ [Action.serverError err] := by
  unfold ServeFile
  generalize DownloadBytes app bucket key w = r at h ⊢
  obtain ⟨⟨out1, _ | err1⟩, w1⟩ := r
  · simp at h
  · simp only [Prod.mk.injEq, Option.some.injEq] at h
    obtain ⟨_, h2⟩ := h
    subst h2
    rfl

theorem bodyWritten_append (a b : ResponseWriter) :
    bodyWritten (a ++ b) = bodyWritten a ++ bodyWritten b := by
  induction a with
  | nil => rfl
  | cons x xs ih => cases x <;> simp [bodyWritten, ih]

/-- Characters of the header value: the fixed opening, the name copied as it is,
the closing quote. -/
theorem dispositionValue_data (name : String) :
    (dispositionValue name).data
      = "attachment;".data ++ (' ' :: ("filename=".data ++ (Char.ofNat 34 :: (name.data ++ [Char.ofNat 34])))) := by
  simp [dispositionValue, String.data_append]

/-- Reading the header value comes down to reading the name followed by the closing
quote as a quoted-string. -/
theorem dispositionFilename_dispositionValue (name : String) :
    dispositionFilename (dispositionValue name)
      = match readQuoted (name.data ++ [Char.ofNat 34]) with
        | some (n, []) => some (String.mk n)
        | _ => none := by
  unfold dispositionFilename
  simp only [dispositionValue_data, List.take_left, List.drop_left, if_true]
  have h1 : List.dropWhile (fun c => decide (c = ' ' ∨ c.toNat = 9))
      (' ' :: ("filename=".data ++ (Char.ofNat 34 :: (name.data ++ [Char.ofNat 34]))))
      = "filename=".data ++ (Char.ofNat 34 :: (name.data ++ [Char.ofNat 34])) := by
    rfl
  rw [h1]
  simp only [List.take_left, List.drop_left, if_true]
  rfl

theorem readQuoted_of_qdtext (n t : List Char) (h : ∀ c ∈ n, qdtext c = true) :
    readQuoted (n ++ Char.ofNat 34 :: t) = some (n, t) := by
  induction n with
  | nil =>
    have h34 : (Char.ofNat 34).toNat = 34 := by decide
    rw [List.nil_append]
    unfold readQuoted
    rw [if_pos h34]
  | cons c cs ih =>
    have hc : qdtext c = true := h c (List.mem_cons_self _ _)
    have ih1 := ih (fun x hx => h x (List.mem_cons_of_mem _ hx))
    have h34 : c.toNat ≠ 34 := by
      intro e
      simp [qdtext, e] at hc
    have h92 : c.toNat ≠ 92 := by
      intro e
      simp [qdtext, e] at hc
    rw [List.cons_append]
    unfold readQuoted
    rw [if_neg h34, if_neg h92, if_pos hc, ih1]
    rfl

theorem readQuoted_length : ∀ (m : Nat) (l a b : List Char), l.length ≤ m →
    readQuoted l = some (a, b) → a.length + b.length + 1 ≤ l.length := by
  intro m
  induction m with
  | zero =>
    intro l a b hl h
    have : l = [] := List.length_eq_zero.1 (Nat.le_zero.1 hl)
    subst this
    simp [readQuoted] at h
  | succ m ih =>
    intro l a b hl h
    cases l with
    | nil => simp [readQuoted] at h
    | cons c rest =>
      unfold readQuoted at h
      split at h
      · simp only [Option.some.injEq, Prod.mk.injEq] at h
        obtain ⟨rfl, rfl⟩ := h
        simp
      · split at h
        · cases rest with
          | nil => simp at h
          | cons d rest1 =>
            simp only at h
            split at h
            · cases hr : readQuoted rest1 with
              | none => simp [hr] at h
              | some r =>
                simp only [hr, Option.map_some', Option.some.injEq, Prod.mk.injEq] at h
                obtain ⟨rfl, rfl⟩ := h
                have := ih rest1 r.1 r.2 (by simp at hl; omega) (by rw [hr])
                simp
                omega
            · simp at h
        · split at h
          · cases hr : readQuoted rest with
            | none => simp [hr] at h
            | some r =>
              simp only [hr, Option.map_some', Option.some.injEq, Prod.mk.injEq] at h
              obtain ⟨rfl, rfl⟩ := h
              have := ih rest r.1 r.2 (by simp at hl; omega) (by rw [hr])
              simp
              omega
          · simp at h

theorem qdtext_of_readQuoted (n : List Char)
    (h : readQuoted (n ++ [Char.ofNat 34]) = some (n, [])) : ∀ c ∈ n, qdtext c = true := by
  induction n with
  | nil => simp
  | cons c cs ih =>
    simp only [List.cons_append] at h
    unfold readQuoted at h
    split at h
    · simp at h
    · split at h
      · cases hcs : cs ++ [Char.ofNat 34] with
        | nil => simp at hcs
        | cons d rest1 =>
          rw [hcs] at h
          simp only at h
          split at h
          · cases hr : readQuoted rest1 with
            | none => simp [hr] at h
            | some r =>
              simp only [hr, Option.map_some', Option.some.injEq, Prod.mk.injEq,
                List.cons.injEq] at h
              obtain ⟨⟨_, h1⟩, h2⟩ := h
              have hlen := readQuoted_length rest1.length rest1 r.1 r.2 (le_refl _) (by rw [hr])
              have hl : (cs ++ [Char.ofNat 34]).length = (d :: rest1).length := by rw [hcs]
              simp [h1] at hlen hl
              omega
          · simp at h
      · split at h
        · next hq =>
          cases hr : readQuoted (cs ++ [Char.ofNat 34]) with
          | none => simp [hr] at h
          | some r =>
            simp only [hr, Option.map_some', Option.some.injEq, Prod.mk.injEq,
              List.cons.injEq, true_and] at h
            obtain ⟨h1, h2⟩ := h
            have hcs := ih (by rw [hr, ← h1, ← h2])
            intro x hx
            rcases List.mem_cons.1 hx with e | e
            · exact e ▸ hq
            · exact hcs x e
        · simp at h

/-- The filename read from the header value is the name exactly when every character
of the name is `qdtext`. -/
theorem dispositionFilename_iff (name : String) :
    dispositionFilename (dispositionValue name) = some name ↔ ∀ c ∈ name.data, qdtext c = true := by
  rw [dispositionFilename_dispositionValue]
  constructor
  · intro h
    apply qdtext_of_readQuoted
    split at h
    · next n hn =>
      simp only [Option.some.injEq] at h
      rw [hn, ← h]
    · simp at h
  · intro h
    have := readQuoted_of_qdtext name.data [] h
    rw [this]

/-! ## Facts about the reference store -/

theorem lookup_upsert_same (k : String × String) (v : Bytes)
    (l : List ((String × String) × Bytes)) : lookup k (upsert k v l) = some v := by
  induction l with
  | nil => simp [upsert, lookup]
  | cons e rest ih =>
    obtain ⟨k1, v1⟩ := e
    by_cases h : k1 = k
    · simp [upsert, lookup, h]
    · simp [upsert, lookup, h, ih]

theorem lookup_upsert_other (k k1 : String × String) (v : Bytes)
    (l : List ((String × String) × Bytes)) (hne : k1 ≠ k) :
    lookup k (upsert k1 v l) = lookup k l := by
  induction l with
  | nil => simp [upsert, lookup, hne]
  | cons e rest ih =>
    obtain ⟨k2, v2⟩ := e
    by_cases h : k2 = k1
    · subst h
      simp [upsert, lookup, hne]
    · by_cases h2 : k2 = k
      · subst h2
        simp [upsert, lookup, h]
      · simp [upsert, lookup, h, h2, ih]

theorem findLoop_remote {σ : Type} (key mismatch : String) (cs : List (Option Object))
    (w : World σ) : (findLoop key mismatch cs w).2.remote = w.remote := by
  induction cs with
  | nil => rfl
  | cons item rest ih =>
    unfold findLoop
    split
    · rfl
    · split
      · rfl
      · split
        · rfl
        · split
          · rfl
          · exact ih

theorem FindObject_remote (bucket key : String) (w : World Store) :
    (FindObject mapApp bucket key w).2.remote = w.remote := by
  cases hl : (ListObjectsV2 mapApp.Storage { Bucket := bucket } w).1 with
  | error e =>
    rw [FindObject_of_error mapApp bucket key w e hl]
    simp only [ListObjectsV2, mapApp, mapService]
    split <;> rfl
  | ok resp =>
    rw [FindObject_of_ok mapApp bucket key w resp hl, findLoop_remote]
    simp only [ListObjectsV2, mapApp, mapService]
    split <;> rfl

theorem DownloadBytes_remote (bucket key : String) (w : World Store) :
    (DownloadBytes mapApp bucket key w).2.remote = w.remote := by
  rw [DownloadBytes_world]
  simp only [GetObject, mapApp, mapService]
  split <;> rfl

/-- A successful put into the reference store leaves the payload under its key. -/
theorem UploadBytes_stores (bucket key : String) (data : Bytes) (w : World Store)
    (h : (UploadBytes mapApp bucket key data w).1 = none) :
    lookup (bucket, key) (UploadBytes mapApp bucket key data w).2.remote.objects
      = some data := by
  rw [UploadBytes_eq_PutObject] at h ⊢
  simp only [PutObject, mapApp, mapService] at h ⊢
  by_cases hb : bucket ∈ w.remote.buckets
  · simp only [hb, if_true]
    exact lookup_upsert_same _ _ _
  · simp [hb] at h

theorem PutObject_other_key (B K b k : String) (data : Bytes) (w : World Store)
    (hne : ¬ (b = B ∧ k = K)) :
    lookup (B, K)
        (PutObject mapApp.Storage { Body := data, Bucket := b, Key := k } w).2.remote.objects
      = lookup (B, K) w.remote.objects := by
  simp only [PutObject, mapApp, mapService]
  by_cases hb : b ∈ w.remote.buckets
  · simp only [hb, if_true]
    exact lookup_upsert_other _ _ _ _ (by simpa using hne)
  · simp [hb]

/-- An operation that is not a write to `(B, K)` leaves the content under `(B, K)`
in the reference store as it was. -/
theorem Op_run_keeps (B K : String) (op : Op) (w : World Store) (h : ¬ op.writesTo B K) :
    lookup (B, K) (op.run mapApp w).remote.objects = lookup (B, K) w.remote.objects := by
  cases op with
  | uploadBytes b k data =>
    simp only [Op.run]
    rw [UploadBytes_eq_PutObject]
    exact PutObject_other_key B K b k data w h
  | uploadFile b k filename =>
    simp only [Op.run]
    cases hf : w.files filename with
    | error e => rw [UploadFile_of_read_error mapApp b k filename w e hf]
    | ok data =>
      rw [UploadFile_of_read_ok mapApp b k filename w data hf]
      exact PutObject_other_key B K b k data w h
  | downloadBytes b k => simp only [Op.run, DownloadBytes_remote]
  | serveFile rw b k name => simp only [Op.run, ServeFile_world, DownloadBytes_remote]
  | findObject b k => simp only [Op.run, FindObject_remote]

theorem runAll_keeps (B K : String) (ops : List Op) (w : World Store)
    (h : ∀ op ∈ ops, ¬ op.writesTo B K) :
    lookup (B, K) (runAll mapApp ops w).remote.objects = lookup (B, K) w.remote.objects := by
  induction ops generalizing w with
  | nil => rfl
  | cons op rest ih =>
    simp only [runAll]
    rw [ih _ (fun o ho => h o (List.mem_cons_of_mem _ ho)),
      Op_run_keeps B K op w (h op (List.mem_cons_self _ _))]

theorem DownloadBytes_of_stored (bucket key : String) (data : Bytes) (w : World Store)
    (h : lookup (bucket, key) w.remote.objects = some data) :
    (DownloadBytes mapApp bucket key w).1 = (data, none) := by
  simp [DownloadBytes, GetObject, mapApp, mapService, h, ReadAll]

/-! ## Properties of the transfer operations -/

/-- C5: over the reference store (a map from bucket and key to bytes), after a
successful `UploadBytes(B, K, P)` and any sequence of accessor operations none of
which writes to `(B, K)`, `DownloadBytes(B, K)` returns exactly `P` and a nil
error. -/
theorem UploadBytes_DownloadBytes_roundtrip (w : World Store) (B K : String) (P : Bytes)
    (ops : List Op)
    (hput : (UploadBytes mapApp B K P w).1 = none)
    (hops : ∀ op ∈ ops, ¬ op.writesTo B K) :
    (DownloadBytes mapApp B K (runAll mapApp ops (UploadBytes mapApp B K P w).2)).1
      = (P, none) := by
  apply DownloadBytes_of_stored
  rw [runAll_keeps B K ops _ hops]
  exact UploadBytes_stores B K P w hput

/-- C5 at an overwrite of `invoice.pdf` in bucket `docs`, followed by a write to
another key, a read, a lookup and a write to the same key of another bucket. -/
theorem UploadBytes_DownloadBytes_roundtrip_witness :
    (UploadBytes mapApp "docs" "invoice.pdf" [1, 2, 3] demoWorld).1 = none ∧
    (∀ op ∈ [Op.uploadBytes "docs" "other.bin" [9], Op.downloadBytes "docs" "invoice.pdf",
              Op.findObject "docs" "invoice",
              Op.uploadFile "scans" "invoice.pdf" "/tmp/invoice.pdf"],
      ¬ op.writesTo "docs" "invoice.pdf") ∧
    (DownloadBytes mapApp "docs" "invoice.pdf"
      (runAll mapApp
        [Op.uploadBytes "docs" "other.bin" [9], Op.downloadBytes "docs" "invoice.pdf",
         Op.findObject "docs" "invoice", Op.uploadFile "scans" "invoice.pdf" "/tmp/invoice.pdf"]
        (UploadBytes mapApp "docs" "invoice.pdf" [1, 2, 3] demoWorld).2)).1
      = ([1, 2, 3], none) :=
  ⟨by decide, by decide,
    UploadBytes_DownloadBytes_roundtrip demoWorld "docs" "invoice.pdf" [1, 2, 3]
      [Op.uploadBytes "docs" "other.bin" [9], Op.downloadBytes "docs" "invoice.pdf",
       Op.findObject "docs" "invoice", Op.uploadFile "scans" "invoice.pdf" "/tmp/invoice.pdf"]
      (by decide) (by decide)⟩

/-- C6: when the file at `path` reads as `P`, `UploadFile(B, K, path)` returns the
same result and leaves the same world (remote store and log of requests) as
`UploadBytes(B, K, P)`, its one request being the put-object of `P` under `(B, K)`;
when the file cannot be read, `UploadFile` returns the read error and leaves the
world as it was, no request issued. -/
theorem UploadFile_eq_UploadBytes {σ : Type} (app : App σ) (bucket key path : String)
    (w : World σ) :
    (∀ P, w.files path = .ok P →
      UploadFile app bucket key path w = UploadBytes app bucket key P w ∧
      (UploadFile app bucket key path w).2.calls
        = w.calls ++ [Call.put { Body := P, Bucket := bucket, Key := key }] ∧
      (UploadBytes app bucket key P w).2.calls
        = w.calls ++ [Call.put { Body := P, Bucket := bucket, Key := key }]) ∧
    (∀ e, w.files path = .error e → UploadFile app bucket key path w = (some e, w)) := by
  constructor
  · intro P hP
    rw [UploadFile_of_read_ok app bucket key path w P hP, UploadBytes_eq_PutObject]
    exact ⟨rfl, rfl, rfl⟩
  · intro e he
    exact UploadFile_of_read_error app bucket key path w e he

/-- C6 at the readable file `/tmp/invoice.pdf`, uploaded to bucket `docs`. -/
theorem UploadFile_eq_UploadBytes_witness :
    demoWorld.files "/tmp/invoice.pdf" = .ok [37, 80, 68, 70] ∧
    (UploadFile mapApp "docs" "copy.pdf" "/tmp/invoice.pdf" demoWorld
        = UploadBytes mapApp "docs" "copy.pdf" [37, 80, 68, 70] demoWorld ∧
      (UploadFile mapApp "docs" "copy.pdf" "/tmp/invoice.pdf" demoWorld).2.calls
        = demoWorld.calls
          ++ [Call.put { Body := [37, 80, 68, 70], Bucket := "docs", Key := "copy.pdf" }] ∧
      (UploadBytes mapApp "docs" "copy.pdf" [37, 80, 68, 70] demoWorld).2.calls
        = demoWorld.calls
          ++ [Call.put { Body := [37, 80, 68, 70], Bucket := "docs", Key := "copy.pdf" }]) :=
  ⟨rfl, (UploadFile_eq_UploadBytes mapApp "docs" "copy.pdf" "/tmp/invoice.pdf" demoWorld).1
    [37, 80, 68, 70] rfl⟩

/-- C7, as amended: when `DownloadBytes` succeeds with payload `P`, `ServeFile`
makes exactly two calls on the response writer, in this order: it sets
`Content-Disposition` to the text `attachment; filename="<name>"`, the display name
copied as it is and the storage key playing no part, and it writes exactly `P`;
the filename a recipient reads from that header is the display name exactly when
every character of the name may stand unescaped in a quoted-string (no double
quote, no backslash, no control character other than tab). -/
theorem ServeFile_present_object {σ : Type} (app : App σ) (rw : ResponseWriter)
    (bucket key name : String) (world : World σ) (P : Bytes)
    (hdl : (DownloadBytes app bucket key world).1 = (P, none)) :
    (ServeFile app rw bucket key name world).1
      = rw ++ [Action.headerSet "Content-Disposition" (dispositionValue name),
               Action.write P] ∧
    dispositionValue name = "attachment; filename=\"" ++ name ++ "\"" ∧
    (dispositionFilename (dispositionValue name) = some name ↔
      ∀ c ∈ name.data, qdtext c = true) ∧
    bodyWritten (ServeFile app rw bucket key name world).1 = bodyWritten rw ++ P := by
  have h := ServeFile_of_ok app rw bucket key name world P hdl
  refine ⟨h, rfl, dispositionFilename_iff name, ?_⟩
  rw [h, bodyWritten_append]
  simp [bodyWritten]

/-- C7, as amended, at object `invoice.pdf` of bucket `docs`, served under the display
name `March invoice.pdf`, all of whose characters are `qdtext`: the filename read
from the header is the display name. -/
theorem ServeFile_present_object_witness :
    (DownloadBytes mapApp "docs" "invoice.pdf" demoWorld).1 = ([37, 80, 68, 70], none) ∧
    ((ServeFile mapApp [] "docs" "invoice.pdf" "March invoice.pdf" demoWorld).1
      = [] ++ [Action.headerSet "Content-Disposition" (dispositionValue "March invoice.pdf"),
               Action.write [37, 80, 68, 70]] ∧
    dispositionValue "March invoice.pdf"
      = "attachment; filename=\"" ++ "March invoice.pdf" ++ "\"" ∧
    (dispositionFilename (dispositionValue "March invoice.pdf") = some "March invoice.pdf" ↔
      ∀ c ∈ "March invoice.pdf".data, qdtext c = true) ∧
    bodyWritten (ServeFile mapApp [] "docs" "invoice.pdf" "March invoice.pdf" demoWorld).1
      = bodyWritten [] ++ [37, 80, 68, 70]) ∧
    (∀ c ∈ "March invoice.pdf".data, qdtext c = true) ∧
    dispositionFilename (dispositionValue "March invoice.pdf") = some "March invoice.pdf" :=
  ⟨by decide,
    ServeFile_present_object mapApp [] "docs" "invoice.pdf" "March invoice.pdf" demoWorld
      [37, 80, 68, 70] (by decide),
    by decide, by decide⟩

/-- C7 as first stated fails: object `invoice.pdf` of bucket `docs` is present and is
served under the display name `a"b.pdf`; the header is set to
`attachment; filename="a"b.pdf"`, whose quoted-string ends at the second quote
with text left over, so no filename is read from it, let alone the display name.
With the display name `a\b` the header reads as the filename `ab`. -/
theorem ServeFile_filename_differs_from_display_name :
    (DownloadBytes mapApp "docs" "invoice.pdf" demoWorld).1 = ([37, 80, 68, 70], none) ∧
    (ServeFile mapApp [] "docs" "invoice.pdf" "a\"b.pdf" demoWorld).1
      = [Action.headerSet "Content-Disposition" "attachment; filename=\"a\"b.pdf\"",
         Action.write [37, 80, 68, 70]] ∧
    dispositionFilename "attachment; filename=\"a\"b.pdf\"" = none ∧
    dispositionFilename "attachment; filename=\"a\"b.pdf\"" ≠ some "a\"b.pdf" ∧
    (ServeFile mapApp [] "docs" "invoice.pdf" (String.mk ['a', Char.ofNat 92, 'b'])
        demoWorld).1
      = [Action.headerSet "Content-Disposition"
           (dispositionValue (String.mk ['a', Char.ofNat 92, 'b'])),
         Action.write [37, 80, 68, 70]] ∧
    dispositionFilename (dispositionValue (String.mk ['a', Char.ofNat 92, 'b'])) = some "ab" ∧
    dispositionFilename (dispositionValue (String.mk ['a', Char.ofNat 92, 'b']))
      ≠ some (String.mk ['a', Char.ofNat 92, 'b']) := by
  refine ⟨?_, ?_, ?_, ?_, ?_, ?_, ?_⟩ <;> decide

/-- C8: when `DownloadBytes` returns an error, `ServeFile` makes exactly one call
on the response writer, `app.ServerError` with that error; it sets no header and
writes no bytes itself, and it leaves the world as `DownloadBytes` left it. -/
theorem ServeFile_failed_download {σ : Type} (app : App σ) (rw : ResponseWriter)
    (bucket key name : String) (world : World σ) (out : Bytes) (err : Error)
    (hdl : (DownloadBytes app bucket key world).1 = (out, some err)) :
    (ServeFile app rw bucket key name world).1 = rw ++ [Action.serverError err] ∧
    bodyWritten (ServeFile app rw bucket key name world).1 = bodyWritten rw ∧
    (∀ n v, Action.headerSet n v ∈ (ServeFile app rw bucket key name world).1 →
      Action.headerSet n v ∈ rw) ∧
    (ServeFile app rw bucket key name world).2 = (DownloadBytes app bucket key world).2 := by
  have h := ServeFile_of_error app rw bucket key name world out err hdl
  refine ⟨h, ?_, ?_, ServeFile_world app rw bucket key name world⟩
  · rw [h, bodyWritten_append]
    simp [bodyWritten]
  · intro n v hmem
    rw [h] at hmem
    simpa using hmem

/-- C8 at a key that bucket `docs` does not hold. -/
theorem ServeFile_failed_download_witness :
    (DownloadBytes mapApp "docs" "missing.pdf" demoWorld).1
        = ([], some { msg := "NoSuchKey" }) ∧
    (ServeFile mapApp [] "docs" "missing.pdf" "x.pdf" demoWorld).1
        = [] ++ [Action.serverError { msg := "NoSuchKey" }] :=
  ⟨by decide,
    (ServeFile_failed_download mapApp [] "docs" "missing.pdf" "x.pdf" demoWorld []
      { msg := "NoSuchKey" } (by decide)).1⟩

end Storage
